import Mathlib

/-!
Verification of the openherd/app replication and synchronization engine.

This file is a shallow embedding, in Lean 4, of the state and operations of
`src/js/openherd.js`, the feed-loading logic of `src/js/app.js`
(`OpenHerdApp.loadPosts`), and the `DiscoveryService` shipped alongside them.

Modelling conventions:
- Machine-level JS values that the claims depend on are modelled explicitly:
  a post's `parsedData.parent` is a JS value that may be absent (`undefined`),
  `null`, or a string, and JS truthiness of such a value is modelled by
  `jsFalsy`.
- Dates are modelled as the integer timestamps that `new Date(s).valueOf()`
  yields for the stored ISO strings; the JS comparator `dateB - dateA` on a
  stable `Array.prototype.sort` is modelled by a stable `mergeSort` with the
  Boolean relation `b.date ≤ a.date`.
- Network effects are modelled by outcome values passed in as functions:
  each `fetch` to a peer's inbox yields a `SubmitOutcome`, each fetch of a
  peer's outbox yields a `FetchOutcome`, and `JSON.parse` of an envelope's
  `data` field is an `Option ParsedData`-valued function. `navigator.onLine`
  is a Boolean parameter.
- `localStorage` writes always succeed (storage quota mechanics are out of
  scope per the spec). The persisted cached-posts blob is tracked separately
  (`storedCache`) from the in-memory `cachedPosts` array because JS
  `Array.prototype.sort` mutates the in-memory array in place while
  `saveCachedPosts` stores a `slice` copy.
- Floating-point coordinate fields (`latitude`, `longitude`) are omitted from
  `ParsedData`: no claim in scope depends on them.
-/

/-- A JS value in the `parent` position of a post's parsed data: absent
(`undefined`), `null`, or a string id. -/
inductive PVal where
  | undef
  | pnull
  | pstr (s : String)
deriving DecidableEq, Repr

/-- JS truthiness-negation `!v` for a `PVal`: true for `undefined`, `null`
and the empty string. -/
def jsFalsy : PVal → Bool
  | .undef => true
  | .pnull => true
  | .pstr s => s == ""

/-- The fields of `JSON.parse(post.data)` that the engine reads.
`date` is the parsed timestamp of the stored ISO date string. -/
structure ParsedData where
  id : String
  text : String
  date : Int
  parent : PVal
deriving DecidableEq, Repr

/-- The signed transport unit `{signature, publicKey, id, data}`
(`createPost`, `src/js/openherd.js:195`). -/
structure Envelope where
  signature : String
  publicKey : String
  id : String
  data : String
deriving DecidableEq, Repr

/-- A fetched/displayable post: an envelope spread together with its
`parsedData` (and the `isPending` flag `loadPosts` adds for queued posts). -/
structure Post where
  signature : String
  publicKey : String
  id : String
  data : String
  parsedData : ParsedData
  isPending : Bool := false
deriving DecidableEq, Repr

/-- An entry of the pending queue (`addPendingPost`,
`src/js/openherd.js:91`). -/
structure PendingEntry where
  envelope : Envelope
  timestamp : Int
  attempts : Nat
deriving DecidableEq, Repr

/-- The mutable state of the `OpenHerdService` singleton that the claims
touch: the configured primary peer, discovered peers, the in-memory cached
posts array, the persisted cached-posts blob, and the pending queue. -/
structure ServiceState where
  defaultCow : String
  discoveredCows : List String
  cachedPosts : List Post
  storedCache : List Post
  pendingPosts : List PendingEntry
deriving DecidableEq, Repr

/-- Outcome of one `fetch` to a peer's `/_openherd/inbox`: the request threw
(network failure or timeout), or a response arrived with an HTTP-ok flag and,
when the body parsed as JSON, the truthiness of its `ok` field. -/
inductive SubmitOutcome where
  | netError
  | http (statusOk : Bool) (bodyOk : Option Bool)
deriving DecidableEq, Repr

/-- `submitPost` (`src/js/openherd.js:236`): returns `result.ok` on an ok
response; every error path (thrown fetch, non-2xx, unparsable body) is caught
and yields `false`. -/
def submitPost : SubmitOutcome → Bool
  | .netError => false
  | .http statusOk bodyOk =>
    if statusOk then
      match bodyOk with
      | some v => v
      | none => false
    else false

/-- `addPendingPost` (`src/js/openherd.js:91`): push a fresh entry with
`attempts = 0` and persist the queue wholesale. -/
def addPendingPost (st : ServiceState) (envelope : Envelope) (now : Int) :
    ServiceState :=
  { st with pendingPosts := st.pendingPosts ++ [⟨envelope, now, 0⟩] }

/-- Result of `broadcastPost`: the service state afterwards, the returned
success count, and the list of peers a submission was actually issued to. -/
structure BroadcastResult where
  state : ServiceState
  successCount : Nat
  attempted : List String
deriving DecidableEq, Repr

/-- `broadcastPost` (`src/js/openherd.js:261`). `resp` gives each peer's
submission outcome; `online` is `navigator.onLine` at entry. Offline: no
submission is attempted, the envelope is enqueued when `saveAsPending`, and
0 is returned. Online: submit to the primary peer and every discovered peer
(`Promise.allSettled`; `submitPost` never rejects), count the truthy results,
and enqueue on total failure when `saveAsPending`. -/
def broadcastPost (online saveAsPending : Bool)
    (resp : String → SubmitOutcome) (st : ServiceState)
    (envelope : Envelope) (now : Int) : BroadcastResult :=
  if !online then
    if saveAsPending then ⟨addPendingPost st envelope now, 0, []⟩
    else ⟨st, 0, []⟩
  else
    let cows := st.defaultCow :: st.discoveredCows
    let results := cows.map fun cow => submitPost (resp cow)
    let successCount := results.countP id
    if successCount == 0 && saveAsPending then
      ⟨addPendingPost st envelope now, successCount, cows⟩
    else ⟨st, successCount, cows⟩

/-- Result of `syncPendingPosts`: state plus the returned
`{success, failed}` counters. -/
structure SyncResult where
  state : ServiceState
  success : Nat
  failed : Nat
deriving DecidableEq, Repr

/-- The sequential loop body of `syncPendingPosts`
(`src/js/openherd.js:299`): for the entry at iteration index `i`, increment
`attempts`, re-broadcast the envelope with `saveAsPending = false` (the
outcome of iteration `i`'s submissions is `resp i`), drop the entry on any
success, keep it only when it failed and its incremented `attempts` is still
below 5. Returns the surviving entries in order plus the success/failure
tallies. -/
def syncLoop (resp : Nat → String → SubmitOutcome) (st : ServiceState) :
    Nat → List PendingEntry → List PendingEntry × Nat × Nat
  | _, [] => ([], 0, 0)
  | i, p :: rest =>
    if 0 < (broadcastPost true false (resp i) st p.envelope 0).successCount then
      ((syncLoop resp st (i + 1) rest).1,
        (syncLoop resp st (i + 1) rest).2.1 + 1,
        (syncLoop resp st (i + 1) rest).2.2)
    else if p.attempts + 1 < 5 then
      ({ p with attempts := p.attempts + 1 } :: (syncLoop resp st (i + 1) rest).1,
        (syncLoop resp st (i + 1) rest).2.1,
        (syncLoop resp st (i + 1) rest).2.2 + 1)
    else
      ((syncLoop resp st (i + 1) rest).1,
        (syncLoop resp st (i + 1) rest).2.1,
        (syncLoop resp st (i + 1) rest).2.2 + 1)

/-- `syncPendingPosts` (`src/js/openherd.js:286`): `{0,0}` on an empty
queue; `{0, queueLength}` without touching the queue when offline; otherwise
run the sequential retry loop and replace the queue with the survivors in
one persist. -/
def syncPendingPosts (online : Bool) (resp : Nat → String → SubmitOutcome)
    (st : ServiceState) : SyncResult :=
  if st.pendingPosts.length == 0 then ⟨st, 0, 0⟩
  else if !online then ⟨st, 0, st.pendingPosts.length⟩
  else
    let r := syncLoop resp st 0 st.pendingPosts
    ⟨{ st with pendingPosts := r.1 }, r.2.1, r.2.2⟩

/-- The surviving-entry map used to characterize `syncPendingPosts`: the
entry at index `i` survives the pass exactly when its re-broadcast achieved
no success and its incremented `attempts` is still below 5, in which case it
survives with `attempts` incremented by one. -/
def retryKept (resp : Nat → String → SubmitOutcome) (st : ServiceState) :
    Nat × PendingEntry → Option PendingEntry := fun ip =>
  if (broadcastPost true false (resp ip.1) st ip.2.envelope 0).successCount = 0 ∧
      ip.2.attempts + 1 < 5 then
    some { ip.2 with attempts := ip.2.attempts + 1 }
  else none

/-- Outcome of one `fetch` of a peer's `/_openherd/outbox`: the request
threw / returned non-2xx / had an unparsable body (`fail`), or it returned a
JSON array of envelopes. -/
inductive FetchOutcome where
  | fail
  | posts (l : List Envelope)
deriving DecidableEq, Repr

/-- Spread an envelope together with its parsed data into a displayable
post, as `fetchPosts` and `loadPosts` do with `{...post, parsedData}`. -/
def mkDisplayPost (e : Envelope) (d : ParsedData) (pending : Bool) : Post :=
  ⟨e.signature, e.publicKey, e.id, e.data, d, pending⟩

/-- The `posts.map(post => ({...post, parsedData: JSON.parse(post.data)}))`
step of `fetchPosts`, with the first `JSON.parse` throw (a `none`) aborting
the whole map, as a throw inside `Array.prototype.map` does. -/
def parseAll (parseF : String → Option ParsedData) :
    List Envelope → Option (List Post)
  | [] => some []
  | e :: rest =>
    match parseF e.data with
    | none => none
    | some d =>
      match parseAll parseF rest with
      | none => none
      | some ps => some (mkDisplayPost e d false :: ps)

/-- `fetchPosts` (`src/js/openherd.js:206`): on a successful response, map
each envelope to itself plus `parsedData = JSON.parse(post.data)`. The whole
body runs in one `try`: a network/HTTP error, or a single envelope whose
`data` fails to parse, makes the catch return `[]` for this source. -/
def fetchPosts (parseF : String → Option ParsedData) :
    FetchOutcome → List Post
  | .fail => []
  | .posts l =>
    match parseAll parseF l with
    | none => []
    | some ps => ps

/-- One `Map.set` step of `new Map(posts.map(p => [p.id, p]))`: an existing
key keeps its position but its value is overwritten; a new key is appended. -/
def insertPair (m : List (String × Post)) (k : String) (v : Post) :
    List (String × Post) :=
  if m.any fun e => e.1 == k then
    m.map fun e => if e.1 == k then (k, v) else e
  else m ++ [(k, v)]

/-- The JS `Map` built from `posts.map(p => [p.id, p])` in insertion order. -/
def jsMapOfPosts (posts : List Post) : List (String × Post) :=
  posts.foldl (fun m p => insertPair m p.id p) []

/-- `Array.from(new Map(posts.map(p => [p.id, p])).values())`
(`src/js/app.js:166`): deduplication by `id`, keys in first-insertion order,
value from the last occurrence of each `id`. -/
def uniquePosts (posts : List Post) : List Post :=
  (jsMapOfPosts posts).map fun e => e.2

/-- The value-level effect of `sortByDate` (`src/js/openherd.js:330`): JS
`Array.prototype.sort` is stable, and the comparator `dateB - dateA` orders
by parsed date descending; modelled by a stable merge sort under the Boolean
relation `b.date ≤ a.date`. -/
def jsSortByDate (posts : List Post) : List Post :=
  posts.mergeSort fun a b => decide (b.parsedData.date ≤ a.parsedData.date)

/-- A minimal JS heap of arrays of posts, to state in-place mutation:
array references are numbers, `arrays` gives each reference's contents. -/
structure JsHeap where
  arrays : Nat → List Post

/-- `sortByDate` (`src/js/openherd.js:330`) at the heap level:
`posts.sort(...)` reorders the array behind the given reference in place and
returns that same reference, not a fresh copy. -/
def sortByDate (h : JsHeap) (r : Nat) : JsHeap × Nat :=
  (⟨fun r2 => if r2 = r then jsSortByDate (h.arrays r) else h.arrays r2⟩, r)

/-- `saveCachedPosts` (`src/js/openherd.js:55`): truncate to the first 100
posts, write that slice to the persisted blob, and point the in-memory
cache at the slice copy. -/
def saveCachedPosts (st : ServiceState) (posts : List Post) : ServiceState :=
  { st with storedCache := posts.take 100, cachedPosts := posts.take 100 }

/-- The posts fetched by `loadPosts` (`src/js/app.js:153`): the primary
peer's feed followed by every discovered peer's feed, concatenated. -/
def fetchedPosts (parseF : String → Option ParsedData)
    (fetchRes : String → FetchOutcome) (st : ServiceState) : List Post :=
  fetchPosts parseF (fetchRes st.defaultCow)
    ++ (st.discoveredCows.map fun cow => fetchPosts parseF (fetchRes cow)).flatten

/-- The pending-posts display list `loadPosts` builds
(`src/js/app.js:183`): each queued envelope spread with
`parsedData = JSON.parse(p.envelope.data)` and `isPending = true`; `none`
models the `JSON.parse` throw on a malformed stored envelope. -/
def pendingDisplay (parseF : String → Option ParsedData) :
    List PendingEntry → Option (List Post)
  | [] => some []
  | p :: rest =>
    match parseF p.envelope.data with
    | none => none
    | some d =>
      match pendingDisplay parseF rest with
      | none => none
      | some ps => some (mkDisplayPost p.envelope d true :: ps)

/-- First phase of `loadPosts` (`src/js/app.js:149`): when online, fetch and
deduplicate; a non-empty deduplicated set is persisted (pre-sort order) and
sorted for display; otherwise — and when offline — the in-memory cached
array is sorted in place and displayed. Returns the state and the base
display list. -/
def loadStage (parseF : String → Option ParsedData)
    (fetchRes : String → FetchOutcome) (st : ServiceState) (online : Bool) :
    ServiceState × List Post :=
  if online then
    if 0 < (uniquePosts (fetchedPosts parseF fetchRes st)).length then
      (saveCachedPosts st (uniquePosts (fetchedPosts parseF fetchRes st)),
        jsSortByDate (uniquePosts (fetchedPosts parseF fetchRes st)))
    else
      ({ st with cachedPosts := jsSortByDate st.cachedPosts },
        jsSortByDate st.cachedPosts)
  else
    ({ st with cachedPosts := jsSortByDate st.cachedPosts },
      jsSortByDate st.cachedPosts)

/-- Result of `loadPosts`: the state afterwards, the displayed list, and
whether the degraded-condition branch ran (the catch that shows the
"Failed to load posts. Showing cached content." toast). -/
structure LoadResult where
  state : ServiceState
  posts : List Post
  degraded : Bool
deriving DecidableEq, Repr

/-- Second phase of `loadPosts` (`src/js/app.js:182`): when the pending
queue is non-empty, build the pending display list and prepend it before a
final sort; a parse throw there is the only throw in the `try`, so the catch
branch sorts the (current) in-memory cache in place, displays it, and
reports the degraded condition. -/
def mergePending (parseF : String → Option ParsedData)
    (sb : ServiceState × List Post) : LoadResult :=
  if 0 < sb.1.pendingPosts.length then
    match pendingDisplay parseF sb.1.pendingPosts with
    | some disp => ⟨sb.1, jsSortByDate (disp ++ sb.2), false⟩
    | none =>
      ⟨{ sb.1 with cachedPosts := jsSortByDate sb.1.cachedPosts },
        jsSortByDate sb.1.cachedPosts, true⟩
  else ⟨sb.1, sb.2, false⟩

/-- `OpenHerdApp.loadPosts` (`src/js/app.js:144`), as the composition of its
fetch-merge phase and its pending-merge phase. -/
def loadPosts (parseF : String → Option ParsedData)
    (fetchRes : String → FetchOutcome) (st : ServiceState) (online : Bool) :
    LoadResult :=
  mergePending parseF (loadStage parseF fetchRes st online)

/-- `getReplies` (`src/js/openherd.js:325`): keep the posts whose parsed
`parent` strictly equals (`===`) the given id. -/
def getReplies (postId : String) (posts : List Post) : List Post :=
  posts.filter fun post =>
    match post.parsedData.parent with
    | .pstr s => s == postId
    | _ => false

/-- `getRootPosts` (`src/js/openherd.js:339`): keep the posts whose parsed
`parent` is falsy (`!parent`) or strictly equals `null`. -/
def getRootPosts (posts : List Post) : List Post :=
  posts.filter fun post =>
    jsFalsy post.parsedData.parent || post.parsedData.parent == PVal.pnull

/-- The root-post criterion in the words of the amended claim C8: `parent`
absent, null, or the empty string. Stated from the amended specification,
to be compared with `getRootPosts` as translated from the source. -/
def specIsRootParent (v : PVal) : Bool :=
  v == PVal.undef || v == PVal.pnull || v == PVal.pstr ""

/-- A service record returned by the mDNS scan: `hosts` and `port` and
`txt` may be absent. -/
structure ServiceRec where
  name : String
  hosts : Option (List String)
  host : String
  port : Option Nat
  txt : Option (List (String × String))
deriving DecidableEq, Repr

/-- A discovered peer as `DiscoveryService.discover` constructs it. -/
structure Cow where
  name : String
  url : String
  host : String
  port : Nat
  txt : List (String × String)
deriving DecidableEq, Repr

/-- The per-record mapping inside `discover`: prefer `hosts[0]` when the
`hosts` array is present and non-empty, else `host`; `port || 3000` (JS
`||`, so a present port of 0 also falls back to 3000); `txt || {}`. -/
def mkCow (s : ServiceRec) : Cow :=
  let host := match s.hosts with
    | some hs => if 0 < hs.length then hs.headD s.host else s.host
    | none => s.host
  let port := match s.port with
    | some p => if p == 0 then 3000 else p
    | none => 3000
  ⟨s.name, "http://" ++ host ++ ":" ++ toString port, host, port, s.txt.getD []⟩

/-- The `DiscoveryService` state the claims touch: the last-known peer set
and the subscriber list (subscribers identified by index). -/
structure DiscoveryState where
  discoveredCows : List Cow
  listeners : List Nat
deriving DecidableEq, Repr

/-- `notifyListeners` (`discovery.js`): deliver the given peer set to every
subscriber; modelled as the list of (subscriber, payload) deliveries. -/
def notifyListeners (st : DiscoveryState) (cows : List Cow) :
    List (Nat × List Cow) :=
  st.listeners.map fun l => (l, cows)

/-- Outcome of one mDNS scan: not on a native platform; an error (either
`result.error` set or the scan throwing — both take the same return path);
or a completed scan with a list of service records. -/
inductive ScanOutcome where
  | notNative
  | scanError
  | services (l : List ServiceRec)
deriving DecidableEq, Repr

/-- `DiscoveryService.discover` (`discovery.js`): returns the state
afterwards, the returned peer list, and the notifications delivered. Only a
completed scan with a non-empty record list updates `discoveredCows` and
notifies; every other outcome returns `[]` leaving state and subscribers
untouched. -/
def discover (st : DiscoveryState) (o : ScanOutcome) :
    DiscoveryState × List Cow × List (Nat × List Cow) :=
  match o with
  | .notNative => (st, [], [])
  | .scanError => (st, [], [])
  | .services l =>
    if l.length == 0 then (st, [], [])
    else
      ({ st with discoveredCows := l.map mkCow }, l.map mkCow,
        notifyListeners st (l.map mkCow))

/-! ### Concrete sample data for witnesses and counterexamples -/

/-- Sample envelope. -/
def envA : Envelope := ⟨"s", "p", "a", "da"⟩

/-- Second sample envelope. -/
def envB : Envelope := ⟨"t", "q", "b", "db"⟩

/-- Peer responses for the C2 witness: the primary accepts, others fail. -/
def respW2 : String → SubmitOutcome := fun cow =>
  if cow == "c" then .http true (some true) else .netError

/-- Service state for the C2 witness: primary `"c"`, one discovered peer. -/
def stW2 : ServiceState := ⟨"c", ["d"], [], [], []⟩

/-- Peer responses for the C1 witness: every submission fails. -/
def respW1 : Nat → String → SubmitOutcome := fun _ _ => .netError

/-- Service state for the C1 witness: a queue holding an entry on its last
permitted attempt and a fresh entry. -/
def stW1 : ServiceState := ⟨"c", [], [], [], [⟨envA, 1, 4⟩, ⟨envB, 2, 0⟩]⟩

/-- A previously discovered peer, for the C4 counterexample. -/
def cowA : Cow := ⟨"old", "http://h:3000", "h", 3000, []⟩

/-- Discovery state with one known peer and one subscriber. -/
def dStA : DiscoveryState := ⟨[cowA], [0]⟩

/-- A scan record for the C4 witness. -/
def recA : ServiceRec := ⟨"n1", some ["h1"], "h0", some 8080, none⟩

/-- Parsed data of the well-formed fetched envelope in the C5 scenario. -/
def pdGood : ParsedData := ⟨"g", "hi", 100, PVal.pnull⟩

/-- Parsed data of the cached post in the C5 scenario. -/
def pdCached : ParsedData := ⟨"ic", "old", 50, PVal.undef⟩

/-- A well-formed fetched envelope (its `data` parses). -/
def envGood : Envelope := ⟨"s1", "p1", "g", "gd"⟩

/-- A malformed fetched envelope (its `data` does not parse). -/
def envBad : Envelope := ⟨"s2", "p2", "x", "xd"⟩

/-- The post sitting in the cache in the C5 scenario. -/
def postCached : Post := ⟨"s3", "p3", "ic", "cd", pdCached, false⟩

/-- The parse function of the C5 scenario: only `envGood`'s data parses. -/
def parseW5 : String → Option ParsedData := fun s =>
  if s == "gd" then some pdGood else none

/-- The single source of the C5 scenario returns one well-formed and one
malformed envelope. -/
def fetchW5 : String → FetchOutcome := fun _ => .posts [envGood, envBad]

/-- Service state for the C5 scenario: one cached post, empty queue. -/
def stW5 : ServiceState := ⟨"c", [], [postCached], [postCached], []⟩

/-- A parse function that rejects everything. -/
def parseNone : String → Option ParsedData := fun _ => none

/-- A fetch that always fails. -/
def fetchFail : String → FetchOutcome := fun _ => .fail

/-- A post whose `parent` is the empty string: present and non-null, yet
falsy in JS. -/
def postEmptyParent : Post := ⟨"s4", "p4", "e", "ed", ⟨"e", "t", 7, PVal.pstr ""⟩, false⟩

/-- An earlier and a later post, to exercise reordering. -/
def postOld : Post := ⟨"s5", "p5", "o", "od", ⟨"o", "t1", 10, PVal.undef⟩, false⟩

/-- The later of the two sample posts. -/
def postNew : Post := ⟨"s6", "p6", "n", "nd", ⟨"n", "t2", 20, PVal.undef⟩, false⟩

/-- A heap whose array 0 holds the two sample posts oldest-first, so that
sorting visibly reorders it. -/
def hW : JsHeap := ⟨fun _ => [postOld, postNew]⟩

/-- Service state with one queued entry whose stored envelope data fails to
parse, to exercise the degraded branch of `loadPosts`. -/
def stP : ServiceState := ⟨"c", [], [postCached], [postCached], [⟨envA, 1, 0⟩]⟩

/-- C3: offline with `saveAsPending = true`, `broadcastPost` attempts no
submission, appends exactly one `PendingEntry` with `attempts = 0` to the
queue (length grows by exactly 1), and returns 0. -/
theorem c3_offline_enqueue (resp : String → SubmitOutcome)
    (st : ServiceState) (envelope : Envelope) (now : Int) :
    broadcastPost false true resp st envelope now =
      ⟨{ st with pendingPosts := st.pendingPosts ++ [⟨envelope, now, 0⟩] }, 0, []⟩ ∧
    (broadcastPost false true resp st envelope now).state.pendingPosts.length =
      st.pendingPosts.length + 1 := by
  constructor
  · rfl
  · simp [broadcastPost, addPendingPost]

/-- C7: on a non-empty pending queue with connectivity false,
`syncPendingPosts` returns `{success := 0, failed := queue length}` and the
state — in particular the queue, no entry and no attempts counter — is
exactly unchanged. -/
theorem c7_sync_offline_frame (resp : Nat → String → SubmitOutcome)
    (st : ServiceState) (h : st.pendingPosts ≠ []) :
    syncPendingPosts false resp st = ⟨st, 0, st.pendingPosts.length⟩ := by
  have hlen : (st.pendingPosts.length == 0) = false := by
    simp [List.length_eq_zero]
    exact h
  simp [syncPendingPosts, hlen]

/-- Witness for C7 at a concrete one-entry queue. -/
theorem c7_sync_offline_frame_witness :
    syncPendingPosts false (fun _ _ => SubmitOutcome.netError)
        ⟨"https://cow.openherd.network", [], [], [],
          [⟨⟨"sig", "pk", "id0", "data0"⟩, 17, 2⟩]⟩ =
      ⟨⟨"https://cow.openherd.network", [], [], [],
          [⟨⟨"sig", "pk", "id0", "data0"⟩, 17, 2⟩]⟩, 0, 1⟩ := by
  exact c7_sync_offline_frame (fun _ _ => SubmitOutcome.netError) _ (by decide)

/-- `submitPost` accepts exactly the outcome with an ok HTTP status and a
body whose `ok` field is truthy. -/
theorem submitPost_eq_accept (o : SubmitOutcome) :
    submitPost o = (o == SubmitOutcome.http true (some true)) := by
  cases o with
  | netError => rfl
  | http statusOk bodyOk =>
    cases statusOk with
    | false => cases bodyOk <;> rfl
    | true =>
      cases bodyOk with
      | none => rfl
      | some v => cases v <;> rfl

/-- Online, `broadcastPost` attempts every peer and its success count is the
number of truthy submission results. -/
theorem broadcastPost_online (saveAsPending : Bool)
    (resp : String → SubmitOutcome) (st : ServiceState) (envelope : Envelope)
    (now : Int) :
    (broadcastPost true saveAsPending resp st envelope now).attempted =
      st.defaultCow :: st.discoveredCows ∧
    (broadcastPost true saveAsPending resp st envelope now).successCount =
      (st.defaultCow :: st.discoveredCows).countP
        (fun cow => submitPost (resp cow)) := by
  unfold broadcastPost
  constructor
  · simp only [Bool.not_true, Bool.false_eq_true, if_false,
      apply_ite BroadcastResult.attempted, ite_self]
  · simp only [Bool.not_true, Bool.false_eq_true, if_false,
      apply_ite BroadcastResult.successCount, ite_self, List.countP_map]
    rfl

/-- An entry `retryKept` keeps has its incremented `attempts` below 5. -/
theorem retryKept_attempts {resp : Nat → String → SubmitOutcome}
    {st : ServiceState} {ip : Nat × PendingEntry} {q : PendingEntry}
    (h : retryKept resp st ip = some q) : q.attempts < 5 := by
  unfold retryKept at h
  split at h
  · rename_i hc
    injection h with h
    subst h
    exact hc.2
  · exact absurd h (by simp)

/-- The survivors of the sequential sync loop, characterized entrywise. -/
theorem syncLoop_fst (resp : Nat → String → SubmitOutcome)
    (st : ServiceState) (i : Nat) (l : List PendingEntry) :
    (syncLoop resp st i l).1 =
      (l.enumFrom i).filterMap (retryKept resp st) := by
  induction l generalizing i with
  | nil => rfl
  | cons p rest ih =>
    by_cases hs : 0 < (broadcastPost true false (resp i) st p.envelope 0).successCount
    · have hk : retryKept resp st (i, p) = none := by
        unfold retryKept
        dsimp only
        rw [if_neg]
        rintro ⟨h1, -⟩
        omega
      simp only [syncLoop, List.enumFrom, List.filterMap_cons, hk, if_pos hs]
      exact ih (i + 1)
    · by_cases ha : p.attempts + 1 < 5
      · have hk : retryKept resp st (i, p) =
            some { p with attempts := p.attempts + 1 } := by
          unfold retryKept
          dsimp only
          rw [if_pos ⟨by omega, ha⟩]
        simp only [syncLoop, List.enumFrom, List.filterMap_cons, hk,
          if_neg hs, if_pos ha]
        rw [ih (i + 1)]
      · have hk : retryKept resp st (i, p) = none := by
          unfold retryKept
          dsimp only
          rw [if_neg]
          rintro ⟨-, h2⟩
          exact ha h2
        simp only [syncLoop, List.enumFrom, List.filterMap_cons, hk,
          if_neg hs, if_neg ha]
        exact ih (i + 1)

/-- C1: for every pending-queue state, a pass of `syncPendingPosts` while
online increments each entry's `attempts` exactly once and re-broadcasts its
envelope; the surviving queue consists exactly of the entries whose
re-broadcast achieved no success and whose incremented `attempts` is still
below 5 — so an entry that fails with `attempts ≥ 5` after the increment is
dropped, and every entry remaining in the queue has `attempts < 5` and is
never retried at `attempts ≥ 5`. -/
theorem c1_sync_retry_cap (resp : Nat → String → SubmitOutcome)
    (st : ServiceState) :
    (syncPendingPosts true resp st).state.pendingPosts =
      (st.pendingPosts.enumFrom 0).filterMap (retryKept resp st) ∧
    ∀ q ∈ (syncPendingPosts true resp st).state.pendingPosts,
      q.attempts < 5 := by
  have hmain : (syncPendingPosts true resp st).state.pendingPosts =
      (st.pendingPosts.enumFrom 0).filterMap (retryKept resp st) := by
    unfold syncPendingPosts
    by_cases h : st.pendingPosts.length == 0
    · have hnil : st.pendingPosts = [] := by
        simpa [List.length_eq_zero] using h
      simp [h, hnil]
    · simp [h, syncLoop_fst]
  refine ⟨hmain, ?_⟩
  intro q hq
  rw [hmain] at hq
  obtain ⟨ip, -, hk⟩ := List.mem_filterMap.mp hq
  exact retryKept_attempts hk

/-- Witness for C1: two queued entries, every submission failing — the
entry at `attempts = 4` is dropped after its fifth failure, the fresh entry
survives at `attempts = 1`, below the cap. -/
theorem c1_sync_retry_cap_witness :
    (syncPendingPosts true respW1 stW1).state.pendingPosts =
      (stW1.pendingPosts.enumFrom 0).filterMap (retryKept respW1 stW1) ∧
    (⟨envB, 2, 1⟩ : PendingEntry).attempts < 5 := by
  refine ⟨(c1_sync_retry_cap respW1 stW1).1, ?_⟩
  exact (c1_sync_retry_cap respW1 stW1).2 ⟨envB, 2, 1⟩ (by decide)

/-- C2: online, `broadcastPost` submits to every target (primary plus all
discovered peers, all-settle), returns a success count equal to exactly the
number of peers whose submission returned `ok:true`, that count is invariant
under permutation of the peer list, and per-target submission errors are
mapped to `false` by `submitPost` (never surfaced as exceptions: every
outcome other than an accepted submission counts as non-success). -/
theorem c2_broadcast_success_count (resp : String → SubmitOutcome)
    (st : ServiceState) (envelope : Envelope) (saveAsPending : Bool)
    (now : Int) :
    (broadcastPost true saveAsPending resp st envelope now).attempted =
      st.defaultCow :: st.discoveredCows ∧
    (broadcastPost true saveAsPending resp st envelope now).successCount =
      (st.defaultCow :: st.discoveredCows).countP
        (fun cow => resp cow == SubmitOutcome.http true (some true)) ∧
    (∀ o : SubmitOutcome,
      submitPost o = true ↔ o = SubmitOutcome.http true (some true)) ∧
    (∀ l l2 : List String, l.Perm l2 →
      l.countP (fun cow => submitPost (resp cow)) =
        l2.countP (fun cow => submitPost (resp cow))) := by
  have hfun : (fun cow => submitPost (resp cow)) =
      (fun cow => resp cow == SubmitOutcome.http true (some true)) :=
    funext fun cow => submitPost_eq_accept (resp cow)
  refine ⟨(broadcastPost_online saveAsPending resp st envelope now).1, ?_, ?_, ?_⟩
  · rw [(broadcastPost_online saveAsPending resp st envelope now).2, hfun]
  · intro o
    rw [submitPost_eq_accept o]
    exact beq_iff_eq
  · intro l l2 hperm
    exact hperm.countP_eq _

/-- Witness for C2: primary accepts, the one discovered peer fails — the
count is 1 as the spec-side count predicts, errors count as non-success,
and swapping two peers leaves the count unchanged. -/
theorem c2_broadcast_success_count_witness :
    (broadcastPost true false respW2 stW2 envA 0).successCount =
      (stW2.defaultCow :: stW2.discoveredCows).countP
        (fun cow => respW2 cow == SubmitOutcome.http true (some true)) ∧
    submitPost SubmitOutcome.netError = false ∧
    ["c", "d"].countP (fun cow => submitPost (respW2 cow)) =
      ["d", "c"].countP (fun cow => submitPost (respW2 cow)) := by
  refine ⟨(c2_broadcast_success_count respW2 stW2 envA false 0).2.1, ?_, ?_⟩
  · have h := (c2_broadcast_success_count respW2 stW2 envA false 0).2.2.1
      SubmitOutcome.netError
    simp only [Bool.eq_false_iff, Ne]
    intro hcontra
    exact absurd (h.mp hcontra) (by decide)
  · exact (c2_broadcast_success_count respW2 stW2 envA false 0).2.2.2
      ["c", "d"] ["d", "c"] (List.Perm.swap "d" "c" [])

/-- Overwriting an existing key leaves the key list unchanged. -/
theorem insertPair_keys_mem {m : List (String × Post)} {k : String} (v : Post)
    (h : (m.any fun e => e.1 == k) = true) :
    (insertPair m k v).map Prod.fst = m.map Prod.fst := by
  unfold insertPair
  rw [if_pos h, List.map_map]
  apply List.map_congr_left
  intro e he
  by_cases hek : (e.1 == k) = true
  · simp only [Function.comp_apply, hek, if_true]
    exact (beq_iff_eq.mp hek).symm
  · simp [Function.comp, hek]

/-- Inserting a fresh key appends it to the key list. -/
theorem insertPair_keys_new {m : List (String × Post)} {k : String} (v : Post)
    (h : (m.any fun e => e.1 == k) = false) :
    (insertPair m k v).map Prod.fst = m.map Prod.fst ++ [k] := by
  unfold insertPair
  rw [if_neg (by simp [h])]
  simp

/-- One `Map.set` step preserves distinctness of the keys. -/
theorem insertPair_keys_nodup {m : List (String × Post)} {k : String}
    (v : Post) (h : (m.map Prod.fst).Nodup) :
    ((insertPair m k v).map Prod.fst).Nodup := by
  cases hany : m.any fun e => e.1 == k
  · rw [insertPair_keys_new v hany]
    have hk : k ∉ m.map Prod.fst := by
      intro hmem
      obtain ⟨e, hem, hfst⟩ := List.mem_map.mp hmem
      have hne := (List.any_eq_false.mp hany) e hem
      simp [hfst] at hne
    simp [List.nodup_append, h, hk]
  · rw [insertPair_keys_mem v hany]
    exact h

/-- One `Map.set` step adds its key to the key set. -/
theorem insertPair_keys_toFinset {m : List (String × Post)} {k : String}
    (v : Post) :
    ((insertPair m k v).map Prod.fst).toFinset =
      insert k (m.map Prod.fst).toFinset := by
  cases hany : m.any fun e => e.1 == k
  · rw [insertPair_keys_new v hany]
    rw [List.toFinset_append]
    rw [Finset.insert_eq, Finset.union_comm]
    simp
  · rw [insertPair_keys_mem v hany]
    have hk : k ∈ (m.map Prod.fst).toFinset := by
      obtain ⟨e, hem, heq⟩ := List.any_eq_true.mp hany
      rw [List.mem_toFinset]
      exact List.mem_map.mpr ⟨e, hem, beq_iff_eq.mp heq⟩
    exact (Finset.insert_eq_self.mpr hk).symm

/-- Folding `Map.set` over the posts keeps the keys distinct. -/
theorem foldl_insert_keys_nodup (posts : List Post) :
    ∀ m : List (String × Post), (m.map Prod.fst).Nodup →
      ((posts.foldl (fun m p => insertPair m p.id p) m).map Prod.fst).Nodup := by
  induction posts with
  | nil => intro m h; simpa using h
  | cons p rest ih =>
    intro m h
    simp only [List.foldl_cons]
    exact ih _ (insertPair_keys_nodup p h)

/-- Folding `Map.set` over the posts yields exactly the set of their ids
(joined with the accumulator's keys). -/
theorem foldl_insert_keys_toFinset (posts : List Post) :
    ∀ m : List (String × Post),
      ((posts.foldl (fun m p => insertPair m p.id p) m).map Prod.fst).toFinset =
        (m.map Prod.fst).toFinset ∪ (posts.map Post.id).toFinset := by
  induction posts with
  | nil => intro m; simp
  | cons p rest ih =>
    intro m
    simp only [List.foldl_cons, List.map_cons, List.toFinset_cons]
    rw [ih, insertPair_keys_toFinset]
    rw [Finset.insert_union, Finset.union_insert]

/-- One `Map.set` step preserves the invariant that each stored value's
`id` is its key. -/
theorem insertPair_snd_id {m : List (String × Post)} {k : String} {v : Post}
    (hm : ∀ e ∈ m, (Prod.snd e).id = e.1) (hv : v.id = k) :
    ∀ e ∈ insertPair m k v, (Prod.snd e).id = e.1 := by
  intro e he
  unfold insertPair at he
  split at he
  · obtain ⟨e0, he0, heq⟩ := List.mem_map.mp he
    by_cases h0 : (e0.1 == k) = true
    · rw [if_pos h0] at heq
      subst heq
      exact hv
    · rw [if_neg h0] at heq
      subst heq
      exact hm e0 he0
  · rcases List.mem_append.mp he with h1 | h1
    · exact hm e h1
    · rw [List.mem_singleton] at h1
      subst h1
      exact hv

/-- In the JS map built from the posts, each value's `id` is its key. -/
theorem jsMapOfPosts_snd_id (posts : List Post) :
    ∀ e ∈ jsMapOfPosts posts, (Prod.snd e).id = e.1 := by
  unfold jsMapOfPosts
  suffices h : ∀ m : List (String × Post), (∀ e ∈ m, (Prod.snd e).id = e.1) →
      ∀ e ∈ posts.foldl (fun m p => insertPair m p.id p) m,
        (Prod.snd e).id = e.1 by
    exact h [] (by simp)
  induction posts with
  | nil => intro m hm; simpa using hm
  | cons p rest ih =>
    intro m hm
    simp only [List.foldl_cons]
    exact ih _ (insertPair_snd_id hm rfl)

/-- C6: for every collection of envelopes (any concatenation of fetched
feeds), the deduplicated merge contains at most one post per distinct `id`
(the id list of the result has no duplicates), and its length equals the
true distinct-id count of the input — so two feeds sharing an envelope id
collapse to one entry. -/
theorem c6_dedup_distinct (posts : List Post) :
    ((uniquePosts posts).map Post.id).Nodup ∧
    (uniquePosts posts).length = (posts.map Post.id).toFinset.card := by
  have hids : (uniquePosts posts).map Post.id =
      (jsMapOfPosts posts).map Prod.fst := by
    unfold uniquePosts
    rw [List.map_map]
    exact List.map_congr_left fun e he => jsMapOfPosts_snd_id posts e he
  have hnodup : ((jsMapOfPosts posts).map Prod.fst).Nodup := by
    unfold jsMapOfPosts
    exact foldl_insert_keys_nodup posts [] (by simp)
  have hfin : ((jsMapOfPosts posts).map Prod.fst).toFinset =
      (posts.map Post.id).toFinset := by
    unfold jsMapOfPosts
    rw [foldl_insert_keys_toFinset posts []]
    simp
  constructor
  · rw [hids]
    exact hnodup
  · have hlen : (uniquePosts posts).length =
        ((jsMapOfPosts posts).map Prod.fst).length := by
      simp [uniquePosts]
    rw [hlen, ← List.toFinset_card_of_nodup hnodup, hfin]

/-- C4 counterexample: a scan that completes with an empty result set, on a
state with one known peer and one subscriber — `discover` returns `[]` but
the known-peer set is NOT replaced with the scan's (empty) result and no
subscriber is notified, refuting the claim that every scan outcome replaces
the set wholesale and notifies all subscribers. -/
theorem c4_counterexample :
    discover dStA (ScanOutcome.services []) = (dStA, [], []) ∧
    dStA.discoveredCows = [cowA] ∧ dStA.listeners = [0] := by
  refine ⟨rfl, rfl, rfl⟩

/-- C4 (amended): only a scan completing with a non-empty record list
replaces the known-peer set wholesale and notifies every subscriber with the
new set; a scan error, an empty scan and a non-native platform all yield an
empty result — rather than propagating an exception — while leaving the
known-peer set unchanged and notifying nobody. -/
theorem c4_discover_amended (st : DiscoveryState) (l : List ServiceRec) :
    (l ≠ [] → discover st (.services l) =
      ({ st with discoveredCows := l.map mkCow }, l.map mkCow,
        st.listeners.map fun i => (i, l.map mkCow))) ∧
    discover st .scanError = (st, [], []) ∧
    discover st (.services []) = (st, [], []) ∧
    discover st .notNative = (st, [], []) := by
  refine ⟨?_, rfl, rfl, rfl⟩
  intro hl
  have hlen : (l.length == 0) = false := by
    simp [List.length_eq_zero]
    exact hl
  simp [discover, hlen, notifyListeners]

/-- Witness for C4 (amended) at a one-record scan over `dStA`. -/
theorem c4_discover_amended_witness :
    discover dStA (.services [recA]) =
      ({ dStA with discoveredCows := [recA].map mkCow }, [recA].map mkCow,
        dStA.listeners.map fun i => (i, [recA].map mkCow)) := by
  exact (c4_discover_amended dStA [recA]).1 (by decide)

/-- C8 counterexample: a post whose `parent` is present and non-null (the
empty string) is returned by `getRootPosts`, refuting the claim that it
returns exactly the posts whose parent is absent or null. -/
theorem c8_counterexample :
    getRootPosts [postEmptyParent] = [postEmptyParent] ∧
    postEmptyParent.parsedData.parent = PVal.pstr "" := by
  refine ⟨rfl, rfl⟩

/-- C8 (amended): `getRootPosts` returns exactly the subset of posts whose
`parent` is absent, null, or the empty string (JS falsiness); `getReplies x`
returns exactly the subset whose `parent` is a string equal to `x`. -/
theorem c8_threads_amended (posts : List Post) (x : String) :
    getRootPosts posts =
      posts.filter (fun p => specIsRootParent p.parsedData.parent) ∧
    getReplies x posts =
      posts.filter (fun p => p.parsedData.parent == PVal.pstr x) := by
  constructor
  · unfold getRootPosts
    apply List.filter_congr
    intro p hp
    cases hv : p.parsedData.parent with
    | undef => simp [jsFalsy, specIsRootParent]
    | pnull => simp [jsFalsy, specIsRootParent]
    | pstr s =>
      simp only [jsFalsy, specIsRootParent]
      have h1 : (PVal.pstr s == PVal.pnull) = false := by
        rw [beq_eq_false_iff_ne]
        intro hcontra
        cases hcontra
      have h2 : (PVal.pstr s == PVal.undef) = false := by
        rw [beq_eq_false_iff_ne]
        intro hcontra
        cases hcontra
      have h3 : (PVal.pstr s == PVal.pstr "") = (s == "") := by
        by_cases hs : s = ""
        · subst hs
          simp
        · have ha : (PVal.pstr s == PVal.pstr "") = false := by
            rw [beq_eq_false_iff_ne]
            intro hcontra
            injection hcontra with hcontra
            exact hs hcontra
          have hb : (s == "") = false := by
            rw [beq_eq_false_iff_ne]
            exact hs
          rw [ha, hb]
      rw [h1, h2, h3]
      simp
  · unfold getReplies
    apply List.filter_congr
    intro p hp
    cases hv : p.parsedData.parent with
    | undef => simp
    | pnull => simp
    | pstr s =>
      by_cases hs : s = x
      · simp [hs]
      · simp [hs]

/-- The fetch-merge phase never touches the pending queue. -/
theorem loadStage_pendingPosts (parseF : String → Option ParsedData)
    (fetchRes : String → FetchOutcome) (st : ServiceState) (online : Bool) :
    (loadStage parseF fetchRes st online).1.pendingPosts = st.pendingPosts := by
  unfold loadStage saveCachedPosts
  cases online
  · rfl
  · by_cases h : 0 < (uniquePosts (fetchedPosts parseF fetchRes st)).length
    · simp [h]
    · simp [h]

/-- The persisted blob after the fetch-merge phase: overwritten (with the
first 100 deduplicated posts) exactly when online with a non-empty
deduplicated fetch result, untouched otherwise. -/
theorem loadStage_storedCache (parseF : String → Option ParsedData)
    (fetchRes : String → FetchOutcome) (st : ServiceState) (online : Bool) :
    (loadStage parseF fetchRes st online).1.storedCache =
      (if online = true ∧
          0 < (uniquePosts (fetchedPosts parseF fetchRes st)).length
        then (uniquePosts (fetchedPosts parseF fetchRes st)).take 100
        else st.storedCache) := by
  unfold loadStage saveCachedPosts
  cases online
  · simp
  · by_cases h : 0 < (uniquePosts (fetchedPosts parseF fetchRes st)).length
    · simp [h]
    · simp [h]

/-- The pending-merge phase touches neither the persisted blob nor the
pending queue. -/
theorem mergePending_state (parseF : String → Option ParsedData)
    (sb : ServiceState × List Post) :
    (mergePending parseF sb).state.storedCache = sb.1.storedCache ∧
    (mergePending parseF sb).state.pendingPosts = sb.1.pendingPosts := by
  unfold mergePending
  by_cases h : 0 < sb.1.pendingPosts.length
  · rw [if_pos h]
    cases hd : pendingDisplay parseF sb.1.pendingPosts
    · exact ⟨rfl, rfl⟩
    · exact ⟨rfl, rfl⟩
  · rw [if_neg h]
    exact ⟨rfl, rfl⟩

/-- The pending-merge phase reports the degraded condition exactly when the
queue is non-empty and some queued envelope's stored data fails to parse;
then it falls back to the sorted in-memory cache (mutating it in place). -/
theorem mergePending_degraded (parseF : String → Option ParsedData)
    (sb : ServiceState × List Post) :
    ((mergePending parseF sb).degraded = true ↔
      0 < sb.1.pendingPosts.length ∧
        pendingDisplay parseF sb.1.pendingPosts = none) ∧
    ((mergePending parseF sb).degraded = true →
      (mergePending parseF sb).posts = jsSortByDate sb.1.cachedPosts ∧
      (mergePending parseF sb).state.cachedPosts =
        jsSortByDate sb.1.cachedPosts) := by
  unfold mergePending
  by_cases h : 0 < sb.1.pendingPosts.length
  · rw [if_pos h]
    cases hd : pendingDisplay parseF sb.1.pendingPosts with
    | none =>
      refine ⟨by simp [h, hd], fun _ => ⟨rfl, rfl⟩⟩
    | some disp =>
      refine ⟨by simp [h, hd], fun hdeg => ?_⟩
      simp at hdeg
  · rw [if_neg h]
    refine ⟨by simp [h], fun hdeg => ?_⟩
    simp at hdeg

/-- The fetch-side parse map fails outright as soon as one envelope's
`data` fails to parse. -/
theorem parseAll_eq_none (parseF : String → Option ParsedData) :
    ∀ l : List Envelope, (∃ e ∈ l, parseF e.data = none) →
      parseAll parseF l = none := by
  intro l
  induction l with
  | nil =>
    rintro ⟨e, he, -⟩
    cases he
  | cons a rest ih =>
    rintro ⟨e, he, hfe⟩
    rcases List.mem_cons.mp he with rfl | hrest
    · simp [parseAll, hfe]
    · cases hfa : parseF a.data with
      | none => simp [parseAll, hfa]
      | some d => simp [parseAll, hfa, ih ⟨e, hrest, hfe⟩]

/-- C5 counterexample: online, a single source returning one well-formed
and one malformed envelope, with one cached post and no pending posts. The
loader does fall back to `sortByDate(cache)`, but the degraded condition is
NOT signalled (`degraded = false`), and the well-formed envelope is dropped
along with the malformed one — refuting the claim that every fetch/parsing
error signals a recoverable degraded condition and that (only) the
malformed envelope is dropped from the result set. -/
theorem c5_counterexample :
    (loadPosts parseW5 fetchW5 stW5 true).degraded = false ∧
    (loadPosts parseW5 fetchW5 stW5 true).posts =
      jsSortByDate stW5.cachedPosts ∧
    envGood.id ∉ ((loadPosts parseW5 fetchW5 stW5 true).posts.map Post.id) ∧
    parseW5 envGood.data = some pdGood ∧
    parseW5 envBad.data = none := by
  refine ⟨rfl, rfl, ?_, rfl, rfl⟩
  have hres : (loadPosts parseW5 fetchW5 stW5 true).posts =
      jsSortByDate [postCached] := rfl
  rw [hres]
  simp only [jsSortByDate, List.mergeSort_singleton, List.map_cons,
    List.map_nil]
  decide

/-- C5 (amended): a failed fetch contributes `[]`; a source with any
malformed envelope contributes `[]` (the whole source feed is dropped, not
just the malformed entry) and nothing crashes; the degraded condition is
signalled exactly when the pending queue is non-empty and some queued
envelope's stored data fails to parse during the merge, and in that case
the operation falls back to the sorted in-memory cache. Fetch and
per-envelope parse errors alone are absorbed silently (the cache fallback
then happens through the empty-result branch, with no signal). -/
theorem c5_load_degraded_amended (parseF : String → Option ParsedData)
    (fetchRes : String → FetchOutcome) (st : ServiceState)
    (l : List Envelope) :
    fetchPosts parseF FetchOutcome.fail = [] ∧
    ((∃ e ∈ l, parseF e.data = none) →
      fetchPosts parseF (FetchOutcome.posts l) = []) ∧
    ((loadPosts parseF fetchRes st true).degraded = true ↔
      0 < st.pendingPosts.length ∧
        pendingDisplay parseF st.pendingPosts = none) ∧
    ((loadPosts parseF fetchRes st true).degraded = true →
      ∃ c : List Post,
        (loadPosts parseF fetchRes st true).posts = jsSortByDate c ∧
        (loadPosts parseF fetchRes st true).state.cachedPosts =
          jsSortByDate c) := by
  refine ⟨rfl, ?_, ?_, ?_⟩
  · intro hex
    have hm : parseAll parseF l = none := parseAll_eq_none parseF l hex
    simp only [fetchPosts]
    rw [hm]
  · have h1 := (mergePending_degraded parseF (loadStage parseF fetchRes st true)).1
    rw [loadStage_pendingPosts] at h1
    exact h1
  · intro hdeg
    exact ⟨(loadStage parseF fetchRes st true).1.cachedPosts,
      (mergePending_degraded parseF (loadStage parseF fetchRes st true)).2 hdeg⟩

/-- Witness for C5 (amended): a source with one malformed envelope yields
`[]`; with a queued entry whose data fails to parse, the loader reports the
degraded condition and falls back to a sorted cache. -/
theorem c5_load_degraded_amended_witness :
    fetchPosts parseNone (FetchOutcome.posts [envBad]) = [] ∧
    (loadPosts parseNone fetchFail stP true).degraded = true ∧
    ∃ c : List Post,
      (loadPosts parseNone fetchFail stP true).posts = jsSortByDate c ∧
      (loadPosts parseNone fetchFail stP true).state.cachedPosts =
        jsSortByDate c := by
  have h := c5_load_degraded_amended parseNone fetchFail stP [envBad]
  refine ⟨h.2.1 ⟨envBad, by decide, rfl⟩, ?_, ?_⟩
  · exact h.2.2.1.mpr ⟨by decide, rfl⟩
  · exact h.2.2.2 (h.2.2.1.mpr ⟨by decide, rfl⟩)

/-- C9: the persist operation truncates to the first 100 posts, so the
stored snapshot never exceeds 100 entries; across `loadPosts` the persisted
snapshot is overwritten (wholesale, with the deduplicated fetch result
capped at 100) exactly when online with a non-empty deduplicated result;
when the deduplicated result is empty the snapshot is left unchanged and
the existing cache is what gets displayed (sorted). -/
theorem c9_cache_cap (parseF : String → Option ParsedData)
    (fetchRes : String → FetchOutcome) (st : ServiceState)
    (posts : List Post) (online : Bool) :
    (saveCachedPosts st posts).storedCache = posts.take 100 ∧
    (saveCachedPosts st posts).storedCache.length ≤ 100 ∧
    (loadPosts parseF fetchRes st online).state.storedCache =
      (if online = true ∧
          0 < (uniquePosts (fetchedPosts parseF fetchRes st)).length
        then (uniquePosts (fetchedPosts parseF fetchRes st)).take 100
        else st.storedCache) ∧
    (online = true →
      uniquePosts (fetchedPosts parseF fetchRes st) = [] →
      st.pendingPosts = [] →
      (loadPosts parseF fetchRes st online).posts =
        jsSortByDate st.cachedPosts ∧
      (loadPosts parseF fetchRes st online).state.storedCache =
        st.storedCache) := by
  refine ⟨rfl, ?_, ?_, ?_⟩
  · have h : (saveCachedPosts st posts).storedCache = posts.take 100 := rfl
    rw [h, List.length_take]
    exact Nat.min_le_left 100 posts.length
  · rw [show (loadPosts parseF fetchRes st online).state.storedCache =
        (loadStage parseF fetchRes st online).1.storedCache from
        (mergePending_state parseF (loadStage parseF fetchRes st online)).1]
    exact loadStage_storedCache parseF fetchRes st online
  · rintro rfl huniq hpend
    have hstage : loadStage parseF fetchRes st true =
        ({ st with cachedPosts := jsSortByDate st.cachedPosts },
          jsSortByDate st.cachedPosts) := by
      unfold loadStage
      rw [huniq]
      simp
    have hres : loadPosts parseF fetchRes st true =
        ⟨{ st with cachedPosts := jsSortByDate st.cachedPosts },
          jsSortByDate st.cachedPosts, false⟩ := by
      unfold loadPosts
      rw [hstage]
      unfold mergePending
      simp [hpend]
    rw [hres]
    exact ⟨rfl, rfl⟩

/-- Witness for C9 at a concrete state: all fetches fail, so the snapshot
stays as it was and the sorted cache is displayed; the persist of one post
stores its 100-truncation. -/
theorem c9_cache_cap_witness :
    (saveCachedPosts stW5 [postCached]).storedCache = [postCached].take 100 ∧
    (loadPosts parseNone fetchFail stW5 true).posts =
      jsSortByDate stW5.cachedPosts ∧
    (loadPosts parseNone fetchFail stW5 true).state.storedCache =
      stW5.storedCache := by
  have h := c9_cache_cap parseNone fetchFail stW5 [postCached] true
  exact ⟨h.1, (h.2.2.2 rfl rfl rfl).1, (h.2.2.2 rfl rfl rfl).2⟩

/-- C10: `sortByDate` returns the very reference it was given (not a fresh
copy) and reorders the array behind it in place into date-descending order
(a permutation of the old contents), leaving every other array untouched;
consequently, when the feed loader falls back to sorting the cached posts,
the in-memory cached-posts collection itself ends up reordered. -/
theorem c10_sort_in_place (h : JsHeap) (r : Nat)
    (parseF : String → Option ParsedData)
    (fetchRes : String → FetchOutcome) (st : ServiceState) :
    (sortByDate h r).2 = r ∧
    (sortByDate h r).1.arrays r = jsSortByDate (h.arrays r) ∧
    (∀ r2, r2 ≠ r → (sortByDate h r).1.arrays r2 = h.arrays r2) ∧
    (jsSortByDate (h.arrays r)).Pairwise
      (fun a b => b.parsedData.date ≤ a.parsedData.date) ∧
    (jsSortByDate (h.arrays r)).Perm (h.arrays r) ∧
    (st.pendingPosts = [] →
      (loadPosts parseF fetchRes st false).state.cachedPosts =
        jsSortByDate st.cachedPosts ∧
      (loadPosts parseF fetchRes st false).posts =
        jsSortByDate st.cachedPosts) := by
  refine ⟨rfl, by simp [sortByDate], ?_, ?_, ?_, ?_⟩
  · intro r2 hne
    simp [sortByDate, hne]
  · have htrans : ∀ a b c : Post,
        decide (b.parsedData.date ≤ a.parsedData.date) = true →
        decide (c.parsedData.date ≤ b.parsedData.date) = true →
        decide (c.parsedData.date ≤ a.parsedData.date) = true := by
      intro a b c hab hbc
      rw [decide_eq_true_iff] at hab hbc ⊢
      exact le_trans hbc hab
    have htotal : ∀ a b : Post,
        (decide (b.parsedData.date ≤ a.parsedData.date)
          || decide (a.parsedData.date ≤ b.parsedData.date)) = true := by
      intro a b
      rcases le_total b.parsedData.date a.parsedData.date with hle | hle
      · simp [hle]
      · simp [hle]
    have hs := List.sorted_mergeSort htrans htotal (h.arrays r)
    refine hs.imp ?_
    intro a b hab
    exact of_decide_eq_true hab
  · exact List.mergeSort_perm (h.arrays r) _
  · intro hpend
    have hres : loadPosts parseF fetchRes st false =
        ⟨{ st with cachedPosts := jsSortByDate st.cachedPosts },
          jsSortByDate st.cachedPosts, false⟩ := by
      unfold loadPosts loadStage mergePending
      simp [hpend]
    rw [hres]
    exact ⟨rfl, rfl⟩

/-- Witness for C10: sorting array 0 of the sample heap returns reference 0
with its contents sorted, array 1 untouched; the offline load of a
pending-free state leaves its cache sorted in place. -/
theorem c10_sort_in_place_witness :
    (sortByDate hW 0).2 = 0 ∧
    (sortByDate hW 0).1.arrays 0 = jsSortByDate (hW.arrays 0) ∧
    (sortByDate hW 0).1.arrays 1 = hW.arrays 1 ∧
    (loadPosts parseNone fetchFail stW5 false).state.cachedPosts =
      jsSortByDate stW5.cachedPosts := by
  obtain ⟨h1, h2, h3, h4, h5, h6⟩ :=
    c10_sort_in_place hW 0 parseNone fetchFail stW5
  exact ⟨h1, h2, h3 1 (by decide), (h6 rfl).1⟩
